import Mathlib

/-!
Shallow embedding of the snapshot history store and diff engine of the
pmpt CLI (the `history` and `diff` library modules and the `squash`
command), together with proofs of the specified properties.

Modelling conventions:
* File-system state is reified: the tracked docs directory is a list of
  (relative path, content) pairs, and each snapshot's on-disk storage
  directory is the `storage` field of the `Snapshot` structure.
* The wall clock is passed in as an explicit `now : String` argument
  wherever the source reads `new Date()`.
* The optional git capture (`trackGit`) is environment I/O that is never
  consulted by any resolution or squash logic; snapshots created by the
  modelled `createFullSnapshot` carry `git := none`.
* Machine integers: version numbers and indices are JS numbers holding
  small non-negative integers; they are modelled as `Nat`.
-/

namespace Pmpt

/-! ## Diff engine (pure, no I/O) -/

/-- Kind of a line in a unified diff (`DiffLine.type` in the source). -/
inductive DiffType where
  | add
  | remove
  | context
deriving DecidableEq, Inhabited

/-- One line of a diff: `{ type, content }`. -/
structure DiffLine where
  type : DiffType
  content : String
deriving DecidableEq, Inhabited

/-- One hunk of a unified diff. -/
structure DiffHunk where
  oldStart : Nat
  oldCount : Nat
  newStart : Nat
  newCount : Nat
  lines : List DiffLine
deriving DecidableEq, Inhabited

/-- Status of a per-file diff. -/
inductive FileStatus where
  | added
  | removed
  | modified
  | unchanged
deriving DecidableEq, Inhabited

/-- Per-file diff result. -/
structure FileDiff where
  fileName : String
  status : FileStatus
  hunks : List DiffHunk
deriving DecidableEq, Inhabited

/-- JavaScript `content.split('\n')` on the character list: split at every
newline, keeping empty segments, always returning at least one segment. -/
def splitOnNewline : List Char → List (List Char)
  | [] => [[]]
  | '\n' :: rest => [] :: splitOnNewline rest
  | c :: rest =>
    match splitOnNewline rest with
    | [] => [[c]]
    | l :: ls => (c :: l) :: ls

/-- `splitLines`: split on newlines and drop exactly one trailing empty
element produced by a final newline. -/
def splitLines (content : String) : List String :=
  let lines := (splitOnNewline content.data).map (fun cs => String.mk cs)
  match lines.getLast? with
  | some "" => lines.dropLast
  | _ => lines

/-- Row `i+1` of the LCS table, given row `i` (`prevRow`): entry `j` of the
result is `dp[i+1][j]` of the table built by `lcsTable` in the source
(`dp[i][j] = dp[i-1][j-1] + 1` on a line match, else
`max(dp[i-1][j], dp[i][j-1])`; row and column 0 are zero). -/
def dpRow (a b : List String) (prevRow : Nat → Nat) (i : Nat) : Nat → Nat
  | 0 => 0
  | j + 1 =>
    if a.getD i "" = b.getD j "" then prevRow j + 1
    else max (prevRow (j + 1)) (dpRow a b prevRow i j)

/-- Entry `dp[i][j]` of the LCS dynamic-programming table of `lcsTable`,
expressed as a function of the indices (the table is built row by row;
`dp i` is row `i`). -/
def dp (a b : List String) : Nat → Nat → Nat
  | 0 => fun _ => 0
  | i + 1 => dpRow a b (dp a b i) i

/-- The body of the `backtrack` while-loop.  State is the pair `(i, j)`;
the loop runs while `i > 0 || j > 0` and each iteration decreases `i + j`,
so a fuel of `i + j` steps suffices (the fuel-exhausted branch is
unreachable from `backtrack`).  Lines are accumulated in push order, i.e.
reversed; `backtrack` reverses them at the end exactly as the source does. -/
def backtrackAux (a b : List String) : Nat → Nat → Nat → List DiffLine
  | 0, _, _ => []
  | fuel + 1, i, j =>
    if i = 0 ∧ j = 0 then []
    else if 0 < i ∧ 0 < j ∧ a.getD (i - 1) "" = b.getD (j - 1) "" then
      ⟨DiffType.context, a.getD (i - 1) ""⟩ :: backtrackAux a b fuel (i - 1) (j - 1)
    else if 0 < j ∧ (i = 0 ∨ dp a b i (j - 1) ≥ dp a b (i - 1) j) then
      ⟨DiffType.add, b.getD (j - 1) ""⟩ :: backtrackAux a b fuel i (j - 1)
    else
      ⟨DiffType.remove, a.getD (i - 1) ""⟩ :: backtrackAux a b fuel (i - 1) j

/-- `backtrack`: walk the LCS table from `(a.length, b.length)` down to
`(0, 0)` and return the diff lines in forward order. -/
def backtrack (a b : List String) : List DiffLine :=
  (backtrackAux a b (a.length + b.length) a.length b.length).reverse

/-- `buildHunk`: build a `DiffHunk` from the slice `[start, endIdx]` of the
flat diff-line list.  1-based start lines count context+removed (old side)
and context+added (new side) lines before the slice. -/
def buildHunk (lines : List DiffLine) (start endIdx : Nat) : DiffHunk :=
  let hunkLines := (lines.drop start).take (endIdx + 1 - start)
  let oldLine := 1 + (lines.take start).countP
    (fun l => l.type = DiffType.context ∨ l.type = DiffType.remove)
  let newLine := 1 + (lines.take start).countP
    (fun l => l.type = DiffType.context ∨ l.type = DiffType.add)
  let oldCount := hunkLines.countP
    (fun l => l.type = DiffType.context ∨ l.type = DiffType.remove)
  let newCount := hunkLines.countP
    (fun l => l.type = DiffType.context ∨ l.type = DiffType.add)
  ⟨oldLine, oldCount, newLine, newCount, hunkLines⟩

/-- Indices of the non-context lines of a flat diff-line list (the
`changeIndices` local of `groupIntoHunks`).  Out-of-range `getD` never
happens (indices come from `List.range lines.length`); the default is an
arbitrary context line. -/
def changeIndices (lines : List DiffLine) : List Nat :=
  (List.range lines.length).filter
    (fun i => (lines.getD i ⟨DiffType.context, ""⟩).type ≠ DiffType.context)

/-- `groupIntoHunks`: indices of non-context lines are windowed with
`contextLines` lines of context on each side; windows that overlap or
touch are merged. -/
def groupIntoHunks (lines : List DiffLine) (contextLines : Nat) : List DiffHunk :=
  match changeIndices lines with
  | [] => []
  | c0 :: rest =>
    let stepFn := fun (acc : List DiffHunk × Nat × Nat) (ck : Nat) =>
      let nextStart := ck - contextLines
      let nextEnd := min (lines.length - 1) (ck + contextLines)
      if nextStart ≤ acc.2.2 + 1 then (acc.1, acc.2.1, nextEnd)
      else (acc.1 ++ [buildHunk lines acc.2.1 acc.2.2], nextStart, nextEnd)
    let fin := rest.foldl stepFn
      ([], c0 - contextLines, min (lines.length - 1) (c0 + contextLines))
    fin.1 ++ [buildHunk lines fin.2.1 fin.2.2]

/-- `computeDiff`: unified diff hunks between two strings (context = 3,
the source's default argument). -/
def computeDiff (oldContent newContent : String) : List DiffHunk :=
  let oldLines := splitLines oldContent
  let newLines := splitLines newContent
  let diffLines := backtrack oldLines newLines
  groupIntoHunks diffLines 3

/-- `diffFile`: classify a single file's change and produce its hunks.
`none` stands for the source's `null` content. -/
def diffFile (fileName : String) (oldContent newContent : Option String) : FileDiff :=
  match oldContent, newContent with
  | none, none => ⟨fileName, FileStatus.unchanged, []⟩
  | none, some nc =>
    let lines := (splitLines nc).map (fun l => (⟨DiffType.add, l⟩ : DiffLine))
    ⟨fileName, FileStatus.added,
      if lines.length > 0 then [⟨0, 0, 1, lines.length, lines⟩] else []⟩
  | some oc, none =>
    let lines := (splitLines oc).map (fun l => (⟨DiffType.remove, l⟩ : DiffLine))
    ⟨fileName, FileStatus.removed,
      if lines.length > 0 then [⟨1, lines.length, 0, 0, lines⟩] else []⟩
  | some oc, some nc =>
    if oc = nc then ⟨fileName, FileStatus.unchanged, []⟩
    else ⟨fileName, FileStatus.modified, computeDiff oc nc⟩

/-! ## Snapshot store -/

/-- Git state captured at snapshot-creation time (purely descriptive,
never consulted by resolution or squash logic). -/
structure GitMeta where
  commit : String
  commitFull : String
  branch : String
  dirty : Bool
  tag : Option String
deriving DecidableEq, Inhabited

/-- One snapshot (`SnapshotEntry` in the source, unified with the
squash-provenance fields that live in its `.meta.json`).
`storage` reifies the contents of the snapshot's on-disk directory
(`snapshotDir`) as relative path ↦ file content, which is all
`existsSync`/`readFileSync` on that directory can observe. -/
structure Snapshot where
  version : Nat
  timestamp : String
  files : List String
  changedFiles : Option (List String)
  note : Option String
  git : Option GitMeta
  storage : List (String × String)
  squashedFrom : Option (List Nat)
  squashedAt : Option String
deriving DecidableEq, Inhabited

/-- Placeholder for an out-of-range index read; every claim below only
reads in-range indices (the source would throw on `snapshots[i]` out of
range). -/
def emptySnapshot : Snapshot :=
  ⟨0, "", [], none, none, none, [], none, none⟩

/-- Contents of the tracked docs directory: relative path ↦ file content,
as enumerated by `glob.sync('**/*.md', { cwd: docsDir })`. -/
abbrev Disk := List (String × String)

/-- Physical read of `fileName` from a snapshot's storage directory:
`existsSync(join(snapshotDir, fileName))` followed by `readFileSync`. -/
def lookupFile (s : Snapshot) (fileName : String) : Option String :=
  (s.storage.find? (fun fc => fc.1 == fileName)).map (fun fc => fc.2)

/-- `resolveFileContent`: walk backwards from `fromIndex` down to 0 and
return the first physically stored copy of `fileName`. -/
def resolveFileContent (snapshots : List Snapshot) : Nat → String → Option String
  | 0, fileName => lookupFile (snapshots.getD 0 emptySnapshot) fileName
  | fromIndex + 1, fileName =>
    match lookupFile (snapshots.getD (fromIndex + 1) emptySnapshot) fileName with
    | some c => some c
    | none => resolveFileContent snapshots fromIndex fileName

/-- `resolveFullSnapshot`: resolve every file listed by the target
snapshot, silently omitting unresolvable ones. -/
def resolveFullSnapshot (snapshots : List Snapshot) (targetIndex : Nat) :
    List (String × String) :=
  (snapshots.getD targetIndex emptySnapshot).files.filterMap
    (fun fileName => (resolveFileContent snapshots targetIndex fileName).map
      (fun c => (fileName, c)))

/-- The negation of the `hasChanged` flag computed per file inside
`createFullSnapshot`: the file is unchanged iff there is a previous
snapshot and the resolved previous content exists and equals the current
on-disk content. -/
def fileUnchanged (existing : List Snapshot) (fileName content : String) : Bool :=
  if existing.length > 0 then
    match resolveFileContent existing (existing.length - 1) fileName with
    | some prev => prev == content
    | none => false
  else false

/-- `createFullSnapshot`: snapshot the tracked directory `disk`.
Version is `existing.length + 1`; every enumerated file is listed in
`files`; only files whose content differs from (or has no) resolvable
previous content are listed in `changedFiles` and copied into the new
snapshot's storage.  The `note` option and git capture are not involved
in any claim; snapshots are created with `note := none`, `git := none`. -/
def createFullSnapshot (now : String) (existing : List Snapshot) (disk : Disk) :
    Snapshot :=
  let version := existing.length + 1
  let files := disk.map (fun fc => fc.1)
  let changed := disk.filter (fun fc => ! fileUnchanged existing fc.1 fc.2)
  { version := version
    timestamp := now
    files := files
    changedFiles := some (changed.map (fun fc => fc.1))
    note := none
    git := none
    storage := changed
    squashedFrom := none
    squashedAt := none }

/-- One `createFullSnapshot` call as a history transformer: the store
appends the new snapshot directory, and a re-listing (`getAllSnapshots`,
sorted ascending by version) returns the previous history followed by
the new snapshot, whose version exceeds (ties only after the numbering
bug demonstrated below) all previous ones. -/
def applyCreate (now : String) (h : List Snapshot) (disk : Disk) : List Snapshot :=
  h ++ [createFullSnapshot now h disk]

/-- A history built by repeated `createFullSnapshot` calls (no squash):
each element of `creates` is the wall-clock string and the docs-directory
contents at that call. -/
def buildHistory (creates : List (String × Disk)) : List Snapshot :=
  creates.foldl (fun h nd => applyCreate nd.1 h nd.2) []

/-- `cmdSquash` (pure part): validity checks, then deletion of every
snapshot in range except the first, then the squash provenance update of
the kept snapshot's metadata.  `none` models rejection before any
deletion or metadata change (`process.exit` after an error message).
Deletion on disk removes the listed snapshot directories; with distinct
versions (the only states squash is specified on) that equals filtering
out the deleted versions.  The kept snapshot's metadata update is guarded
in the source by the existence of its `.meta.json`; snapshots written by
`createFullSnapshot` always have one, so the model updates it. -/
def squashHistory (now : String) (h : List Snapshot) (fromV toV : Nat) :
    Option (List Snapshot) :=
  if toV ≤ fromV then none
  else if h.isEmpty then none
  else
    let toSquash := h.filter (fun s => fromV ≤ s.version && s.version ≤ toV)
    if toSquash.length < 2 then none
    else
      match toSquash with
      | [] => none
      | keep :: deleteSnaps =>
        let deletedVersions := deleteSnaps.map (fun s => s.version)
        some ((h.filter (fun s => ! deletedVersions.contains s.version)).map
          (fun s =>
            if s.version = keep.version then
              { s with squashedFrom := some (toSquash.map (fun t => t.version))
                       squashedAt := some now }
            else s))

/-- One store operation: a `createFullSnapshot` call or a `cmdSquash`
invocation. -/
inductive Op where
  | create (now : String) (disk : Disk)
  | squash (fromV toV : Nat) (now : String)

/-- Apply one operation; a rejected squash leaves the history unchanged. -/
def applyOp (h : List Snapshot) : Op → List Snapshot
  | Op.create now disk => applyCreate now h disk
  | Op.squash fromV toV now => (squashHistory now h fromV toV).getD h

/-- Run a sequence of operations from the empty history. -/
def runOps (ops : List Op) : List Snapshot := ops.foldl applyOp []

/-- The operation sequence demonstrating the version-numbering collision:
four snapshots, an interior squash of v2..v3 (which keeps v2 and deletes
only v3, so v4 survives), then one more snapshot, which receives version
`count + 1 = 3 + 1 = 4`, duplicating the surviving v4. -/
def collisionOps : List Op :=
  [Op.create "t1" [("f.md", "1")], Op.create "t2" [("f.md", "1")],
   Op.create "t3" [("f.md", "1")], Op.create "t4" [("f.md", "1")],
   Op.squash 2 3 "t5", Op.create "t6" [("f.md", "1")]]

/-! ## Listing (`getAllSnapshots`) -/

/-- The fields of a parsed `.meta.json` that `getAllSnapshots` reads
(`meta.files`, `meta.changedFiles`, `meta.note`, `meta.git`); each may be
absent from the JSON object. -/
structure MetaJson where
  files : Option (List String)
  changedFiles : Option (List String)
  note : Option String
  git : Option GitMeta
deriving DecidableEq, Inhabited

/-- The empty parsed-metadata object `{}` used when the metadata file is
missing or fails to parse. -/
def emptyMeta : MetaJson := ⟨none, none, none, none⟩

/-- One directory entry of the history directory as `getAllSnapshots`
observes it: its name, whether it is a directory, its `.meta.json`
(`none` = no metadata file, `some none` = present but unparseable,
`some (some m)` = parsed), and its stored file contents. -/
structure DirEnt where
  name : String
  isDir : Bool
  meta : Option (Option MetaJson)
  contents : List (String × String)
deriving DecidableEq, Inhabited

/-- Value of a digit run, as `parseInt(·, 10)` on it. -/
def digitsToNat (cs : List Char) : Nat :=
  cs.foldl (fun n c => 10 * n + (c.toNat - 48)) 0

/-- Match a directory name against `/^v(\d+)-(.+)$/`: a leading `v`, a
non-empty digit run, a `-`, and a non-empty remainder (`.` does not match
newlines, and directory names contain none). -/
def parseSnapshotDirName (s : String) : Option (Nat × String) :=
  match s.data with
  | 'v' :: rest =>
    let digits := rest.takeWhile (fun c => c.isDigit)
    if digits.isEmpty then none
    else
      match rest.dropWhile (fun c => c.isDigit) with
      | '-' :: tail =>
        if tail.isEmpty || tail.contains '\n' then none
        else some (digitsToNat digits, String.mk tail)
      | _ => none
  | _ => none

/-- Test `/^\d{8}T\d{6}$/` on a raw timestamp. -/
def isCompactTimestamp (cs : List Char) : Bool :=
  cs.length = 15 && (cs.take 8).all (fun c => c.isDigit)
    && cs.getD 8 ' ' = 'T' && (cs.drop 9).all (fun c => c.isDigit)

/-- Legacy branch of `parseTimestamp`, the replacement of the first match
of the pattern `T(.+)$` by `T` followed by the time part with every dash
turned into a colon: after the first `T` that has at least one following
character, every `-` becomes `:`; with no such `T` the string is
unchanged. -/
def legacyTimestamp (cs : List Char) : List Char :=
  match cs.dropWhile (fun c => c ≠ 'T') with
  | 'T' :: after =>
    if after.isEmpty then cs
    else cs.takeWhile (fun c => c ≠ 'T') ++
      'T' :: after.map (fun c => if c = '-' then ':' else c)
  | _ => cs

/-- `parseTimestamp`: normalize a directory-name timestamp, compact
(`20260225T163000`) or legacy (`2026-02-25T16-30-00`), to ISO form. -/
def parseTimestamp (raw : String) : String :=
  let cs := raw.data
  if isCompactTimestamp cs then
    String.mk (cs.take 4 ++ '-' :: ((cs.drop 4).take 2) ++ '-' :: ((cs.drop 6).take 2)
      ++ 'T' :: ((cs.drop 9).take 2) ++ ':' :: ((cs.drop 11).take 2)
      ++ ':' :: ((cs.drop 13).take 2))
  else String.mk (legacyTimestamp cs)

/-- The per-directory body of the `getAllSnapshots` loop: skip names that
do not match the snapshot pattern and non-directories; fall back to the
empty metadata object when `.meta.json` is missing or unparseable;
version and timestamp always come from the directory name. -/
def snapshotOfDir (d : DirEnt) : Option Snapshot :=
  match parseSnapshotDirName d.name with
  | none => none
  | some (v, raw) =>
    if d.isDir then
      let m := match d.meta with
        | some (some m) => m
        | _ => emptyMeta
      some { version := v
             timestamp := parseTimestamp raw
             files := m.files.getD []
             changedFiles := m.changedFiles
             note := m.note
             git := m.git
             storage := d.contents
             squashedFrom := none
             squashedAt := none }
    else none

/-- `getAllSnapshots`: collect the entry of every snapshot directory and
sort ascending by version (a stable sort, as the source's
`sort((a, b) => a.version - b.version)`). -/
def getAllSnapshots (dirs : List DirEnt) : List Snapshot :=
  (dirs.filterMap snapshotOfDir).insertionSort (fun a b => a.version ≤ b.version)

/-! ## Lemmas about the diff engine -/

/-- On two equal line lists, every step of the backtrack loop takes the
context branch, so every emitted line is a context line. -/
theorem backtrackAux_self_context (a : List String) :
    ∀ (i fuel : Nat), i ≤ fuel →
      ∀ x ∈ backtrackAux a a fuel i i, x.type = DiffType.context := by
  intro i
  induction i with
  | zero =>
    intro fuel _ x hx
    cases fuel with
    | zero => simp [backtrackAux] at hx
    | succ f => simp [backtrackAux] at hx
  | succ k ih =>
    intro fuel hle x hx
    cases fuel with
    | zero => omega
    | succ f =>
      rw [backtrackAux, if_neg (by omega), if_pos ⟨Nat.succ_pos k, Nat.succ_pos k, rfl⟩] at hx
      rcases List.mem_cons.mp hx with h | h
      · rw [h]
      · exact ih f (by omega) x h

/-- A diff-line list with only context lines has no change indices. -/
theorem changeIndices_eq_nil (lines : List DiffLine)
    (h : ∀ x ∈ lines, x.type = DiffType.context) : changeIndices lines = [] := by
  unfold changeIndices
  rw [List.filter_eq_nil_iff]
  intro i hi
  rw [List.mem_range] at hi
  rw [List.getD_eq_getElem lines _ hi]
  simp [h lines[i] (lines.getElem_mem hi)]

/-- A diff-line list with only context lines groups into zero hunks. -/
theorem groupIntoHunks_all_context (lines : List DiffLine) (n : Nat)
    (h : ∀ x ∈ lines, x.type = DiffType.context) : groupIntoHunks lines n = [] := by
  unfold groupIntoHunks
  rw [changeIndices_eq_nil lines h]

/-! ## Claim theorems: diff engine -/

/-- Claim C6: for old text `"a\nb\nc\n"` and new text `"a\nx\nc\n"`,
`computeDiff` returns exactly one hunk whose line sequence is context `a`,
removed `b`, added `x`, context `c` (the LCS backtrack taking the
insertion branch on the tie). -/
theorem computeDiff_round_trip :
    computeDiff "a\nb\nc\n" "a\nx\nc\n" =
      [⟨1, 3, 1, 3, [⟨DiffType.context, "a"⟩, ⟨DiffType.remove, "b"⟩,
        ⟨DiffType.add, "x"⟩, ⟨DiffType.context, "c"⟩]⟩] := by decide

/-- Claim C7: for every string `x`, `computeDiff x x` returns the empty
hunk list. -/
theorem computeDiff_self_eq_nil (x : String) : computeDiff x x = [] := by
  unfold computeDiff
  apply groupIntoHunks_all_context
  intro l hl
  unfold backtrack at hl
  rw [List.mem_reverse] at hl
  exact backtrackAux_self_context (splitLines x) _ _ (by omega) l hl

/-- Claim C8, counterexample: for the empty old content, `diffFile`
reports status `removed` but zero hunks (the empty string splits into
zero lines), not exactly one hunk as claimed for every string. -/
theorem diffFile_empty_removed_cex :
    (diffFile "f" (some "") none).status = FileStatus.removed ∧
      (diffFile "f" (some "") none).hunks.length ≠ 1 := by decide

/-- Claim C8 as amended: for every string `A` with at least one line,
`diffFile name (some A) none` has status `removed` and exactly one hunk
holding all of `A`'s lines marked removed (`oldCount` = number of lines,
`newCount = 0`); symmetrically for every string `B` with at least one
line, `diffFile name none (some B)` has status `added` and exactly one
hunk holding all of `B`'s lines marked added. -/
theorem diffFile_added_removed_structure (name A B : String)
    (hA : splitLines A ≠ []) (hB : splitLines B ≠ []) :
    diffFile name (some A) none =
      ⟨name, FileStatus.removed,
        [⟨1, (splitLines A).length, 0, 0,
          (splitLines A).map (fun l => ⟨DiffType.remove, l⟩)⟩]⟩ ∧
    diffFile name none (some B) =
      ⟨name, FileStatus.added,
        [⟨0, 0, 1, (splitLines B).length,
          (splitLines B).map (fun l => ⟨DiffType.add, l⟩)⟩]⟩ := by
  constructor
  · have hlen : ((splitLines A).map
        (fun l => (⟨DiffType.remove, l⟩ : DiffLine))).length > 0 := by
      rw [List.length_map]
      exact List.length_pos.mpr hA
    simp only [diffFile]
    rw [if_pos hlen, List.length_map]
  · have hlen : ((splitLines B).map
        (fun l => (⟨DiffType.add, l⟩ : DiffLine))).length > 0 := by
      rw [List.length_map]
      exact List.length_pos.mpr hB
    simp only [diffFile]
    rw [if_pos hlen, List.length_map]

/-- Claim C8 witness: the amended statement applied to the one-line
contents `"x\n"` and `"y\n"`. -/
theorem diffFile_added_removed_structure_witness :
    splitLines "x\n" ≠ [] ∧
    diffFile "f" (some "x\n") none =
      ⟨"f", FileStatus.removed,
        [⟨1, (splitLines "x\n").length, 0, 0,
          (splitLines "x\n").map (fun l => ⟨DiffType.remove, l⟩)⟩]⟩ :=
  ⟨by decide,
    (diffFile_added_removed_structure "f" "x\n" "y\n" (by decide) (by decide)).1⟩

/-! ## Lemmas about the snapshot store -/

/-- Unfolding of the backward walk at a positive index. -/
theorem resolveFileContent_succ (snaps : List Snapshot) (k : Nat) (f : String) :
    resolveFileContent snaps (k + 1) f =
      match lookupFile (snaps.getD (k + 1) emptySnapshot) f with
      | some c => some c
      | none => resolveFileContent snaps k f := rfl

/-- The backward walk from index `i` only reads positions `≤ i`, so
appending snapshots after position `i` does not change its result. -/
theorem resolveFileContent_append (snaps extra : List Snapshot) (f : String) :
    ∀ i, i < snaps.length →
      resolveFileContent (snaps ++ extra) i f = resolveFileContent snaps i f := by
  intro i
  induction i with
  | zero =>
    intro hi
    unfold resolveFileContent
    rw [List.getD_append _ _ _ _ hi]
  | succ k ih =>
    intro hi
    rw [resolveFileContent_succ, resolveFileContent_succ, List.getD_append _ _ _ _ hi]
    cases lookupFile (snaps.getD (k + 1) emptySnapshot) f with
    | some c => rfl
    | none => exact ih (by omega)

/-- `fileUnchanged` holds exactly when a previous snapshot exists and the
resolved previous content equals the current content. -/
theorem fileUnchanged_iff (h : List Snapshot) (f c : String) :
    fileUnchanged h f c = true ↔
      0 < h.length ∧ resolveFileContent h (h.length - 1) f = some c := by
  unfold fileUnchanged
  by_cases hl : h.length > 0
  · rw [if_pos hl]
    cases hr : resolveFileContent h (h.length - 1) f with
    | none => simp [hl]
    | some p =>
      constructor
      · intro hpc
        have hpc' : p = c := eq_of_beq hpc
        exact ⟨hl, by rw [hpc']⟩
      · rintro ⟨-, hpc⟩
        have hpc' : p = c := Option.some.inj hpc
        rw [hpc']
        exact beq_self_eq_true c
  · rw [if_neg hl]
    simp [hl]

/-- Looking a key up in a filtered association list whose keys are
distinct: the unique pair with that key is found iff it survives the
filter. -/
theorem find?_filter_eq (p : String × String → Bool) :
    ∀ (l : Disk) (f c : String), (l.map Prod.fst).Nodup →
      List.lookup f l = some c →
      (l.filter p).find? (fun x => x.1 == f) =
        if p (f, c) then some (f, c) else none := by
  intro l
  induction l with
  | nil => intro f c _ hlk; simp [List.lookup] at hlk
  | cons ab t ih =>
    intro f c hnd hlk
    obtain ⟨a, b⟩ := ab
    rw [List.map_cons, List.nodup_cons] at hnd
    obtain ⟨hna, hnt⟩ := hnd
    by_cases hfa : f = a
    · subst hfa
      have hfb : (f == f) = true := beq_self_eq_true f
      have hbc : b = c := by
        rw [List.lookup_cons_self] at hlk
        exact Option.some.inj hlk
      subst hbc
      by_cases hp : p (f, b)
      · rw [List.filter_cons, if_pos hp, if_pos hp]
        rw [List.find?_cons_of_pos _ (by simp)]
      · rw [List.filter_cons, if_neg hp, if_neg hp]
        rw [List.find?_eq_none]
        intro x hx
        have hx1 : x.1 ∈ t.map Prod.fst :=
          List.mem_map_of_mem _ (List.mem_of_mem_filter hx)
        simp only [beq_iff_eq]
        intro hxf
        rw [hxf] at hx1
        exact hna hx1
    · have hne : (f == a) = false := beq_eq_false_iff_ne.mpr hfa
      have hlk' : List.lookup f t = some c := by
        rw [List.lookup_cons, hne] at hlk
        exact hlk
      have hres := ih f c hnt hlk'
      have hne2 : ((a, b).1 == f) = false :=
        beq_eq_false_iff_ne.mpr (fun hh => hfa hh.symm)
      by_cases hp : p (a, b)
      · rw [List.filter_cons, if_pos hp, List.find?_cons_of_neg _ (by simp [hne2])]
        exact hres
      · rw [List.filter_cons, if_neg hp]
        exact hres

/-- Physical storage of `createFullSnapshot` at a key of the tracked
directory: absent iff the file was unchanged, otherwise the current
content. -/
theorem lookupFile_createFullSnapshot (now : String) (h : List Snapshot) (d : Disk)
    (f c : String) (hnd : (d.map Prod.fst).Nodup) (hlk : List.lookup f d = some c) :
    lookupFile (createFullSnapshot now h d) f =
      if fileUnchanged h f c then none else some c := by
  show ((d.filter (fun fc => ! fileUnchanged h fc.1 fc.2)).find?
      (fun fc => fc.1 == f)).map (fun fc => fc.2) = _
  rw [find?_filter_eq (fun fc => ! fileUnchanged h fc.1 fc.2) d f c hnd hlk]
  by_cases hu : fileUnchanged h f c
  · simp [hu]
  · simp [hu]

/-- Membership in `changedFiles` of `createFullSnapshot` at a key of the
tracked directory is exactly non-`fileUnchanged`. -/
theorem mem_changedFiles_createFullSnapshot (now : String) (h : List Snapshot)
    (d : Disk) (f c : String) (hnd : (d.map Prod.fst).Nodup)
    (hlk : List.lookup f d = some c) :
    f ∈ ((createFullSnapshot now h d).changedFiles.getD []) ↔
      fileUnchanged h f c = false := by
  have hfind := find?_filter_eq (fun fc => ! fileUnchanged h fc.1 fc.2) d f c hnd hlk
  show f ∈ (d.filter (fun fc => ! fileUnchanged h fc.1 fc.2)).map (fun fc => fc.1) ↔ _
  constructor
  · intro hin
    obtain ⟨fc, hfc, hfceq⟩ := List.mem_map.mp hin
    cases hb : fileUnchanged h f c
    · rfl
    · exfalso
      rw [if_neg (by simp [hb])] at hfind
      have hsome : ((d.filter (fun fc => ! fileUnchanged h fc.1 fc.2)).find?
          (fun x => x.1 == f)).isSome :=
        List.find?_isSome.mpr ⟨fc, hfc, by simp [hfceq]⟩
      rw [hfind] at hsome
      simp at hsome
  · intro hu
    rw [if_pos (by simp [hu])] at hfind
    exact List.mem_map.mpr ⟨(f, c), List.mem_of_find?_eq_some hfind, rfl⟩

/-- One more call appended on the right of a create-only history. -/
theorem buildHistory_concat (creates : List (String × Disk)) (nd : String × Disk) :
    buildHistory (creates ++ [nd]) = applyCreate nd.1 (buildHistory creates) nd.2 := by
  unfold buildHistory
  rw [List.foldl_append]
  rfl

/-- A create-only history has one snapshot per call. -/
theorem buildHistory_length (creates : List (String × Disk)) :
    (buildHistory creates).length = creates.length := by
  induction creates using List.reverseRecOn with
  | nil => rfl
  | append_singleton l nd ih =>
    rw [buildHistory_concat]
    unfold applyCreate
    simp [ih]

/-! ## Claim theorems: squash -/

/-- Claim C2, failing run: after creating v1..v4, squashing v2..v3, and
creating once more, the history's versions are `[1, 2, 4, 4]` — the new
snapshot's version (count of existing snapshots + 1) collides with the
surviving v4, so versions are neither pairwise distinct nor strictly
above all existing ones, contradicting the claimed invariant. -/
theorem version_collision_after_interior_squash :
    (runOps collisionOps).map (fun s => s.version) = [1, 2, 4, 4] ∧
      ¬ ((runOps collisionOps).map (fun s => s.version)).Nodup := by decide

/-- Claim C4: a squash whose range is invalid — `fromVersion ≥ toVersion`,
or fewer than two snapshots with version in range — is rejected before
any deletion or metadata change, leaving the history exactly as it was. -/
theorem squash_invalid_rejected (now : String) (h : List Snapshot) (fromV toV : Nat)
    (hbad : toV ≤ fromV ∨
      (h.filter (fun s => fromV ≤ s.version && s.version ≤ toV)).length < 2) :
    squashHistory now h fromV toV = none ∧
      applyOp h (Op.squash fromV toV now) = h := by
  have hnone : squashHistory now h fromV toV = none := by
    unfold squashHistory
    rcases hbad with hb | hb
    · rw [if_pos hb]
    · by_cases hle : toV ≤ fromV
      · rw [if_pos hle]
      · rw [if_neg hle]
        by_cases hemp : h.isEmpty
        · rw [if_pos hemp]
        · rw [if_neg hemp]
          simp only [if_pos hb]
  exact ⟨hnone, by simp [applyOp, hnone]⟩

/-- Claim C4 witness: squashing v1..v2 on a single-snapshot history is
rejected and the history is unchanged. -/
theorem squash_invalid_rejected_witness :
    (2 ≤ 1 ∨
      (([⟨1, "t", ["a.md"], some ["a.md"], none, none, [("a.md", "x")], none, none⟩] :
          List Snapshot).filter
        (fun s => 1 ≤ s.version && s.version ≤ 2)).length < 2) ∧
    squashHistory "now"
      [⟨1, "t", ["a.md"], some ["a.md"], none, none, [("a.md", "x")], none, none⟩]
      1 2 = none :=
  ⟨Or.inr (by decide),
    (squash_invalid_rejected "now"
      [⟨1, "t", ["a.md"], some ["a.md"], none, none, [("a.md", "x")], none, none⟩]
      1 2 (Or.inr (by decide))).1⟩

/-- Claim C3: on a history holding exactly v1, v2, v3, v4, squashing
v2..v4 succeeds and produces exactly `[v1, v2']` where `v2'` is v2 with
`squashedFrom = [2, 3, 4]` and `squashedAt` set to the operation time and
all other fields (in particular its storage) untouched; v3 and v4 are
gone from the history (their storage directories were removed). -/
theorem squash_v2_v4_scenario (now : String) (h : List Snapshot)
    (hv : h.map (fun s => s.version) = [1, 2, 3, 4]) :
    squashHistory now h 2 4 =
      some [h.getD 0 emptySnapshot,
        { h.getD 1 emptySnapshot with
            squashedFrom := some [2, 3, 4], squashedAt := some now }] ∧
    ((squashHistory now h 2 4).getD h).map (fun s => s.version) = [1, 2] := by
  have hlen : h.length = 4 := by simpa using congrArg List.length hv
  rcases h with _ | ⟨a, _ | ⟨b, _ | ⟨c, _ | ⟨d, _ | ⟨e, t⟩⟩⟩⟩⟩ <;>
    simp only [List.length, List.length_cons, List.length_nil] at hlen <;> try omega
  simp only [List.map_cons, List.map_nil, List.cons.injEq, and_true] at hv
  obtain ⟨ha, hb, hc, hd⟩ := hv
  have heq : squashHistory now [a, b, c, d] 2 4 =
      some [a, { b with squashedFrom := some [2, 3, 4], squashedAt := some now }] := by
    simp [squashHistory, ha, hb, hc, hd]
  exact ⟨heq, by rw [heq]; simp [ha, hb]⟩

/-! ## Claim theorems: snapshot store -/

/-- Claim C5: a file of the tracked directory that is present in the
previous snapshot and whose resolved content there equals its current
on-disk content is excluded from the new snapshot's `changedFiles` and
not copied into its storage; conversely a file with no resolvable prior
content (in particular on the first snapshot) or with differing content
is listed in `changedFiles` and physically copied. -/
theorem delta_minimality (now : String) (h : List Snapshot) (d : Disk) (f c : String)
    (hnd : (d.map Prod.fst).Nodup) (hlk : List.lookup f d = some c) :
    (h ≠ [] → f ∈ (h.getD (h.length - 1) emptySnapshot).files →
      resolveFileContent h (h.length - 1) f = some c →
      f ∉ ((createFullSnapshot now h d).changedFiles.getD []) ∧
        lookupFile (createFullSnapshot now h d) f = none) ∧
    ((h = [] ∨ resolveFileContent h (h.length - 1) f = none ∨
        (∃ p, resolveFileContent h (h.length - 1) f = some p ∧ p ≠ c)) →
      f ∈ ((createFullSnapshot now h d).changedFiles.getD []) ∧
        lookupFile (createFullSnapshot now h d) f = some c) := by
  have hmem := mem_changedFiles_createFullSnapshot now h d f c hnd hlk
  have hlook := lookupFile_createFullSnapshot now h d f c hnd hlk
  constructor
  · intro hne _ hres
    have hu : fileUnchanged h f c = true :=
      (fileUnchanged_iff h f c).mpr ⟨List.length_pos.mpr hne, hres⟩
    constructor
    · intro hin
      have hfalse := hmem.mp hin
      rw [hu] at hfalse
      exact absurd hfalse (by decide)
    · rw [hlook, if_pos hu]
  · intro hcase
    have hu : fileUnchanged h f c = false := by
      cases hb : fileUnchanged h f c
      · rfl
      · exfalso
        obtain ⟨hpos, hres⟩ := (fileUnchanged_iff h f c).mp hb
        rcases hcase with hc1 | hc2 | ⟨p, hp, hpne⟩
        · rw [hc1] at hpos
          exact absurd hpos (by simp)
        · rw [hc2] at hres
          exact absurd hres (by simp)
        · rw [hp] at hres
          exact hpne (Option.some.inj hres)
    exact ⟨hmem.mpr hu, by rw [hlook, if_neg (by simp [hu])]⟩

/-- Claim C5 witness: on a one-snapshot history storing `a.md` with
content `"1"`, a second snapshot over a disk holding the unchanged `a.md`
and a new `b.md` skips `a.md` and copies `b.md`. -/
theorem delta_minimality_witness :
    ("a.md" ∉ ((createFullSnapshot "t2"
        [⟨1, "t1", ["a.md"], some ["a.md"], none, none, [("a.md", "1")], none, none⟩]
        [("a.md", "1"), ("b.md", "2")]).changedFiles.getD []) ∧
      lookupFile (createFullSnapshot "t2"
        [⟨1, "t1", ["a.md"], some ["a.md"], none, none, [("a.md", "1")], none, none⟩]
        [("a.md", "1"), ("b.md", "2")]) "a.md" = none) ∧
    ("b.md" ∈ ((createFullSnapshot "t2"
        [⟨1, "t1", ["a.md"], some ["a.md"], none, none, [("a.md", "1")], none, none⟩]
        [("a.md", "1"), ("b.md", "2")]).changedFiles.getD []) ∧
      lookupFile (createFullSnapshot "t2"
        [⟨1, "t1", ["a.md"], some ["a.md"], none, none, [("a.md", "1")], none, none⟩]
        [("a.md", "1"), ("b.md", "2")]) "b.md" = some "2") :=
  ⟨(delta_minimality "t2"
      [⟨1, "t1", ["a.md"], some ["a.md"], none, none, [("a.md", "1")], none, none⟩]
      [("a.md", "1"), ("b.md", "2")] "a.md" "1" (by decide) (by decide)).1
      (by decide) (by decide) (by decide),
   (delta_minimality "t2"
      [⟨1, "t1", ["a.md"], some ["a.md"], none, none, [("a.md", "1")], none, none⟩]
      [("a.md", "1"), ("b.md", "2")] "b.md" "2" (by decide) (by decide)).2
      (Or.inr (Or.inl (by decide)))⟩

/-- Claim C1: in a history built by repeated `createFullSnapshot` calls
(no squash), resolving any file of any snapshot at that snapshot's index
returns exactly the content the file had on disk when that snapshot was
created. -/
theorem resolveFileContent_correct :
    ∀ (creates : List (String × Disk)),
      (∀ nd ∈ creates, (nd.2.map Prod.fst).Nodup) →
      ∀ i, i < creates.length → ∀ f c : String,
        List.lookup f (creates.getD i ("", [])).2 = some c →
        resolveFileContent (buildHistory creates) i f = some c := by
  intro creates
  induction creates using List.reverseRecOn with
  | nil =>
    intro _ i hi
    simp at hi
  | append_singleton l nd ih =>
    intro hnd i hi f c hlk
    have hlen : (buildHistory l).length = l.length := buildHistory_length l
    rw [buildHistory_concat]
    unfold applyCreate
    by_cases hil : i < l.length
    · rw [List.getD_append _ _ _ _ hil] at hlk
      have hres := ih (fun x hx => hnd x (List.mem_append_left _ hx)) i hil f c hlk
      rw [resolveFileContent_append _ _ f i (by omega)]
      exact hres
    · have hieq : i = l.length := by
        rw [List.length_append, List.length_singleton] at hi
        omega
      subst hieq
      have hgd : (l ++ [nd]).getD l.length ("", []) = nd := by
        rw [List.getD_append_right _ _ _ _ (le_refl _)]
        simp
      rw [hgd] at hlk
      have hndl : (nd.2.map Prod.fst).Nodup :=
        hnd nd (List.mem_append_right _ (List.mem_singleton_self nd))
      have hlook := lookupFile_createFullSnapshot nd.1 (buildHistory l) nd.2 f c hndl hlk
      have hgd2 : ∀ j, j = l.length →
          (buildHistory l ++ [createFullSnapshot nd.1 (buildHistory l) nd.2]).getD j
            emptySnapshot = createFullSnapshot nd.1 (buildHistory l) nd.2 := by
        intro j hj
        rw [hj, ← hlen, List.getD_append_right _ _ _ _ (le_refl _)]
        simp
      by_cases hu : fileUnchanged (buildHistory l) f c
      · rw [if_pos hu] at hlook
        obtain ⟨hpos, hres⟩ := (fileUnchanged_iff _ f c).mp hu
        obtain ⟨k, hk⟩ : ∃ k, l.length = k + 1 := ⟨l.length - 1, by omega⟩
        rw [hk, resolveFileContent_succ, hgd2 (k + 1) hk.symm, hlook]
        have hres2 : resolveFileContent
            (buildHistory l ++ [createFullSnapshot nd.1 (buildHistory l) nd.2]) k f =
            some c := by
          rw [resolveFileContent_append _ _ f k (by omega)]
          have hkk : (buildHistory l).length - 1 = k := by omega
          rw [← hkk]
          exact hres
        exact hres2
      · rw [if_neg hu] at hlook
        rcases Nat.eq_zero_or_pos l.length with hc0 | hpos
        · have hH : buildHistory l = [] := List.length_eq_zero.mp (by omega)
          rw [hH] at hlook ⊢
          rw [hc0, List.nil_append]
          unfold resolveFileContent
          simpa using hlook
        · obtain ⟨k, hk⟩ : ∃ k, l.length = k + 1 := ⟨l.length - 1, by omega⟩
          rw [hk, resolveFileContent_succ, hgd2 (k + 1) hk.symm, hlook]

/-- Claim C1 witness: a two-snapshot history where `a.md` is unchanged at
the second call (hence stored only in the first snapshot's storage); the
walk from index 1 still resolves its creation-time content. -/
theorem resolveFileContent_correct_witness :
    (∀ nd ∈ ([("t1", [("a.md", "1")]), ("t2", [("a.md", "1"), ("b.md", "2")])] :
        List (String × Disk)), (nd.2.map Prod.fst).Nodup) ∧
    resolveFileContent
      (buildHistory [("t1", [("a.md", "1")]), ("t2", [("a.md", "1"), ("b.md", "2")])])
      1 "a.md" = some "1" :=
  ⟨by decide,
    resolveFileContent_correct
      [("t1", [("a.md", "1")]), ("t2", [("a.md", "1"), ("b.md", "2")])]
      (by decide) 1 (by decide) "a.md" "1" (by decide)⟩

/-- The list of snapshot storages indexes pointwise like the snapshots. -/
theorem getD_map_storage :
    ∀ (l : List Snapshot) (j : Nat),
      (l.map (fun s => s.storage)).getD j [] = (l.getD j emptySnapshot).storage := by
  intro l
  induction l with
  | nil =>
    intro j
    cases j <;> rfl
  | cons a t ih =>
    intro j
    cases j with
    | zero => rfl
    | succ k =>
      rw [List.map_cons, List.getD_cons_succ, List.getD_cons_succ]
      exact ih k

/-- Claim C10: the backward walk never consults any snapshot's `files`
listing.  First conjunct: `resolveFileContent snaps i f` returns `c`
exactly when some position `j ≤ i` physically stores `f` with content `c`
and no later position `≤ i` stores `f` at all — a characterization purely
in terms of storage, with no reference to `files`, so a file absent from
`snaps[i].files` (e.g. deleted from the working copy) still resolves to
its most recent stored content.  Second conjunct: the result is invariant
under any change of the snapshots that preserves their storages. -/
theorem resolveFileContent_ignores_files (snaps : List Snapshot) (i : Nat) (f : String) :
    (∀ c, resolveFileContent snaps i f = some c ↔
      ∃ j, j ≤ i ∧ lookupFile (snaps.getD j emptySnapshot) f = some c ∧
        ∀ k, j < k → k ≤ i → lookupFile (snaps.getD k emptySnapshot) f = none) ∧
    (∀ snaps' : List Snapshot,
      snaps.map (fun s => s.storage) = snaps'.map (fun s => s.storage) →
      resolveFileContent snaps' i f = resolveFileContent snaps i f) := by
  constructor
  · intro c
    induction i with
    | zero =>
      unfold resolveFileContent
      constructor
      · intro hl
        exact ⟨0, le_refl 0, hl, fun k hk1 hk2 => by omega⟩
      · rintro ⟨j, hj, hlook, -⟩
        have hj0 : j = 0 := by omega
        rw [hj0] at hlook
        exact hlook
    | succ k ihk =>
      rw [resolveFileContent_succ]
      cases hl : lookupFile (snaps.getD (k + 1) emptySnapshot) f with
      | some c' =>
        constructor
        · intro hcc
          exact ⟨k + 1, le_refl _, by rw [hl]; exact hcc,
            fun m hm1 hm2 => by omega⟩
        · rintro ⟨j, hj, hlook, hnone⟩
          by_cases hjk : j = k + 1
          · rw [hjk, hl] at hlook
            exact hlook
          · have := hnone (k + 1) (by omega) (le_refl _)
            rw [hl] at this
            exact absurd this (by simp)
      | none =>
        constructor
        · intro hc
          obtain ⟨j, hj, hlook, hnone⟩ := ihk.mp hc
          refine ⟨j, by omega, hlook, fun m hm1 hm2 => ?_⟩
          by_cases hmk : m = k + 1
          · rw [hmk]
            exact hl
          · exact hnone m hm1 (by omega)
        · rintro ⟨j, hj, hlook, hnone⟩
          apply ihk.mpr
          have hjk : j ≤ k := by
            by_cases hjeq : j = k + 1
            · rw [hjeq, hl] at hlook
              exact absurd hlook (by simp)
            · omega
          exact ⟨j, hjk, hlook, fun m hm1 hm2 => hnone m hm1 (by omega)⟩
  · intro snaps' hst
    have hgd : ∀ j, (snaps.getD j emptySnapshot).storage =
        (snaps'.getD j emptySnapshot).storage := by
      intro j
      rw [← getD_map_storage, ← getD_map_storage, hst]
    have hlf : ∀ j, lookupFile (snaps'.getD j emptySnapshot) f =
        lookupFile (snaps.getD j emptySnapshot) f := by
      intro j
      unfold lookupFile
      rw [hgd j]
    induction i with
    | zero =>
      unfold resolveFileContent
      exact hlf 0
    | succ k ihk =>
      rw [resolveFileContent_succ, resolveFileContent_succ, hlf (k + 1)]
      cases lookupFile (snaps.getD (k + 1) emptySnapshot) f with
      | some c => rfl
      | none => exact ihk

/-- Claim C10 witness: `a.md` is stored only in the first snapshot and is
absent from the second snapshot's `files` (the file was deleted from the
working copy), yet the walk from index 1 resolves its stored content. -/
theorem resolveFileContent_ignores_files_witness :
    resolveFileContent
      [⟨1, "t1", ["a.md"], some ["a.md"], none, none, [("a.md", "1")], none, none⟩,
       ⟨2, "t2", [], some [], none, none, [], none, none⟩] 1 "a.md" = some "1" :=
  ((resolveFileContent_ignores_files
      [⟨1, "t1", ["a.md"], some ["a.md"], none, none, [("a.md", "1")], none, none⟩,
       ⟨2, "t2", [], some [], none, none, [], none, none⟩] 1 "a.md").1 "1").mpr
    ⟨0, by omega, by decide, by
      intro k h1 h2
      have hk1 : k = 1 := by omega
      rw [hk1]
      decide⟩

/-! ## Claim theorems: listing -/

/-- Claim C9: a snapshot directory whose name matches the version pattern
but whose metadata file is missing or unparseable still yields a listing
entry — version and timestamp recovered from the directory name, empty
`files` — and every other valid snapshot directory still yields its entry
(the corrupt one prevents nothing). -/
theorem getAllSnapshots_tolerates_corrupt (dirs : List DirEnt) (d : DirEnt)
    (v : Nat) (raw : String) (hd : d ∈ dirs)
    (hname : parseSnapshotDirName d.name = some (v, raw))
    (hdir : d.isDir = true)
    (hmeta : d.meta = none ∨ d.meta = some none) :
    ({ version := v, timestamp := parseTimestamp raw, files := [],
       changedFiles := none, note := none, git := none, storage := d.contents,
       squashedFrom := none, squashedAt := none } : Snapshot) ∈ getAllSnapshots dirs ∧
    ∀ d' ∈ dirs, ∀ e, snapshotOfDir d' = some e → e ∈ getAllSnapshots dirs := by
  have hmem_sort : ∀ e, e ∈ dirs.filterMap snapshotOfDir → e ∈ getAllSnapshots dirs := by
    intro e he
    unfold getAllSnapshots
    exact ((List.perm_insertionSort _ _).mem_iff).mpr he
  constructor
  · apply hmem_sort
    apply List.mem_filterMap.mpr
    refine ⟨d, hd, ?_⟩
    rcases hmeta with hm | hm <;> simp [snapshotOfDir, hname, hm, hdir, emptyMeta]
  · intro d' hd' e he
    exact hmem_sort e (List.mem_filterMap.mpr ⟨d', hd', he⟩)

/-- Claim C9 witness: a two-directory history where `v1`'s metadata file
is missing; both the recovered `v1` entry and the intact `v2` entry are
listed. -/
theorem getAllSnapshots_tolerates_corrupt_witness :
    ({ version := 1, timestamp := parseTimestamp "20260225T163000", files := [],
       changedFiles := none, note := none, git := none,
       storage := [("a.md", "x")], squashedFrom := none, squashedAt := none } :
        Snapshot) ∈ getAllSnapshots
      [⟨"v1-20260225T163000", true, none, [("a.md", "x")]⟩,
       ⟨"v2-20260101T000000", true, some (some ⟨some ["a.md"], none, none, none⟩), []⟩] :=
  (getAllSnapshots_tolerates_corrupt
    [⟨"v1-20260225T163000", true, none, [("a.md", "x")]⟩,
     ⟨"v2-20260101T000000", true, some (some ⟨some ["a.md"], none, none, none⟩), []⟩]
    ⟨"v1-20260225T163000", true, none, [("a.md", "x")]⟩
    1 "20260225T163000" (by decide) (by decide) (by decide) (Or.inl rfl)).1

/-- Claim C3 witness: the squash scenario applied to a concrete
four-snapshot history. -/
theorem squash_v2_v4_scenario_witness :
    (([⟨1, "t1", ["a.md"], some ["a.md"], none, none, [("a.md", "1")], none, none⟩,
       ⟨2, "t2", ["a.md"], some ["a.md"], none, none, [("a.md", "2")], none, none⟩,
       ⟨3, "t3", ["a.md"], some [], none, none, [], none, none⟩,
       ⟨4, "t4", ["a.md"], some ["a.md"], none, none, [("a.md", "4")], none, none⟩] :
        List Snapshot).map (fun s => s.version) = [1, 2, 3, 4]) ∧
    squashHistory "now"
      [⟨1, "t1", ["a.md"], some ["a.md"], none, none, [("a.md", "1")], none, none⟩,
       ⟨2, "t2", ["a.md"], some ["a.md"], none, none, [("a.md", "2")], none, none⟩,
       ⟨3, "t3", ["a.md"], some [], none, none, [], none, none⟩,
       ⟨4, "t4", ["a.md"], some ["a.md"], none, none, [("a.md", "4")], none, none⟩]
      2 4 =
      some [⟨1, "t1", ["a.md"], some ["a.md"], none, none, [("a.md", "1")], none, none⟩,
        ⟨2, "t2", ["a.md"], some ["a.md"], none, none, [("a.md", "2")], some [2, 3, 4],
          some "now"⟩] :=
  ⟨by decide,
    (squash_v2_v4_scenario "now"
      [⟨1, "t1", ["a.md"], some ["a.md"], none, none, [("a.md", "1")], none, none⟩,
       ⟨2, "t2", ["a.md"], some ["a.md"], none, none, [("a.md", "2")], none, none⟩,
       ⟨3, "t3", ["a.md"], some [], none, none, [], none, none⟩,
       ⟨4, "t4", ["a.md"], some ["a.md"], none, none, [("a.md", "4")], none, none⟩]
      (by decide)).1⟩

end Pmpt
